import Mathlib

/-!
Verification development for the coredhcp response-shaping plugins
(`plugins/whitelist`, `plugins/nbp`): a shallow embedding of the
decision logic of the two handlers together with theorems about it.

Machine strings are modelled as Lean `String`; the byte-level helpers
of Go's standard library (`strings.ToLower`, `strings.TrimSpace`,
`strings.ReplaceAll`) are embedded below, restricted to the ASCII
inputs the plugins feed them.  Replies are modelled as association
lists of (option code, option value) pairs; DHCP packet decoding and
the wire format are external collaborators and appear only through the
values the handlers read from them (the hardware-address string, the
requested option codes, the advertised architecture codes).
-/

namespace CoreDHCP

/-- Model of Go `strings.ToLower` on the ASCII strings the plugins
use (hardware addresses in hex-and-colon text form): every character
in the range `A`..`Z` is mapped 32 code points up; all others are kept. -/
def asciiLowerChar (c : Char) : Char :=
  if 65 ≤ c.toNat ∧ c.toNat ≤ 90 then Char.ofNat (c.toNat + 32) else c

/-- Go strings.ToLower, character-wise over the string. -/
def asciiToLower (s : String) : String :=
  String.mk (s.data.map asciiLowerChar)

/-- Model of Go `unicode.IsSpace` restricted to ASCII whitespace. -/
def goIsSpace (c : Char) : Bool :=
  c = ' ' ∨ c = '\t' ∨ c = '\n' ∨ c = '\x0b' ∨ c = '\x0c' ∨ c = '\r'

/-- Model of Go `strings.TrimSpace`: drop whitespace from both ends. -/
def trimSpace (s : String) : String :=
  String.mk (((s.data.dropWhile goIsSpace).reverse.dropWhile goIsSpace).reverse)

/-! ## plugins/whitelist

The package-level map `whitelistedMACs map[string]bool` is modelled as
an `Option (List String)`: `none` is the Go `nil` map, `some l` a map
whose key set is the set of elements of `l` (all inserted values are
`true`, so a map lookup is exactly list membership).  The handlers take
the map as an explicit argument; `setup4`/`setup6` build it from the
configuration arguments via `setupWhitelist`. -/

/-- The loop body shared by `setup4` and `setup6` of the whitelist
plugin: each argument is trimmed and lower-cased, and inserted into the
map when non-empty after trimming (`if len(mac) > 0`). -/
def setupWhitelist : List String → List String
  | [] => []
  | arg :: rest =>
    let mac := asciiToLower (trimSpace arg)
    if mac.length > 0 then mac :: setupWhitelist rest else setupWhitelist rest

/-- Embedding of whitelist.Handler4.  `clientHWAddrStr` is the text form of
`req.ClientHWAddr` (Go `net.HardwareAddr.String()`); `resp` is the
in-progress reply, of abstract type since the handler never inspects
it.  Returns the `(resp, stop)` pair, with a dropped reply as `none`. -/
def Handler4 {α : Type} (wl : Option (List String)) (clientHWAddrStr : String)
    (resp : α) : Option α × Bool :=
  match wl with
  | none => (some resp, false)
  | some l =>
    if l.isEmpty then (some resp, false)
    else
      let macStr := asciiToLower clientHWAddrStr
      if l.contains macStr then (some resp, false) else (none, true)

/-- Embedding of whitelist.Handler6.  `extractedMAC` is the result of
`dhcpv6.ExtractMAC(req)` rendered as text (`none` on extraction error). -/
def Handler6 {α : Type} (wl : Option (List String)) (extractedMAC : Option String)
    (resp : α) : Option α × Bool :=
  match wl with
  | none => (some resp, false)
  | some l =>
    if l.isEmpty then (some resp, false)
    else
      match extractedMAC with
      | none => (none, true)
      | some m =>
        let macStr := asciiToLower m
        if l.contains macStr then (some resp, false) else (none, true)

/-! ## plugins/nbp

The configured boot template is a parsed URL.  Go's `url.URL` is an
external collaborator; the fields the plugin reads and writes are
modelled as the structure `URL` below, and `url.URL.String()` is
modelled for the URL shapes the plugin handles (non-empty scheme and
host, no user/fragment/opaque part, already-escaped path). -/

/-- The fields of Go `url.URL` used by the nbp plugin. -/
structure URL where
  scheme : String
  host : String
  path : String
  query : String
  deriving DecidableEq

/-- Model of `url.URL.String()` for a URL with scheme and host and no
userinfo/fragment: `scheme://host path` followed by `?query` when the
raw query is non-empty. -/
def uString (u : URL) : String :=
  u.scheme ++ "://" ++ u.host ++ u.path ++ (if u.query = "" then "" else "?" ++ u.query)

/-- Architecture codes from the external `iana` package (RFC 4578/5970
processor-architecture values), as read from `req.ClientArch()`. -/
def EFI_X86_64 : Nat := 9

/-- Code iana.EFI_ARM64 (0x0b). -/
def EFI_ARM64 : Nat := 11

/-- Code iana.INTEL_X86PC (0x00). -/
def INTEL_X86PC : Nat := 0

/-- Embedding of nbp.getArchString: total classification of the advertised
architecture-code list; empty list gives `default`, otherwise only the
first element is inspected. -/
def getArchString (archs : List Nat) : String :=
  match archs with
  | [] => "default"
  | a :: _ =>
    if a = EFI_X86_64 then "x86"
    else if a = EFI_ARM64 then "arm64"
    else if a = INTEL_X86PC then "x86legacy"
    else "unknown"

/-- Fuel-driven core of `strings.ReplaceAll` for a non-empty pattern:
scan left to right; at a position where the pattern occurs, emit the
replacement and skip past the pattern; otherwise keep the character.
The fuel is the length of the scanned list, so it never runs out. -/
def goReplaceAux (pat rep : List Char) : Nat → List Char → List Char
  | 0, s => s
  | _ + 1, [] => []
  | fuel + 1, c :: rest =>
    if pat.isPrefixOf (c :: rest) then
      rep ++ goReplaceAux pat rep fuel ((c :: rest).drop pat.length)
    else
      c :: goReplaceAux pat rep fuel rest

/-- Model of Go `strings.ReplaceAll s pat rep` for non-empty `pat`
(the plugin's patterns are the literals for arch and efi placeholders);
for an empty pattern the string is returned unchanged. -/
def goReplaceAll (s pat rep : String) : String :=
  if pat.data.isEmpty then s
  else String.mk (goReplaceAux pat.data rep.data s.data.length s.data)

/-- The per-request URL derivation inside `nbp.setup4`'s returned
closure: copy the template by value, substitute `{arch}` in the path
with the classified short arch form, then substitute `{efi}` according
to the `switch archStr` table. -/
def resolveURL4 (u : URL) (archs : List Nat) : URL :=
  let archStr := getArchString archs
  let p1 := goReplaceAll u.path "{arch}" archStr
  let p2 :=
    if archStr = "x86" then goReplaceAll p1 "{efi}" "grubx64.efi"
    else if archStr = "arm64" then goReplaceAll p1 "{efi}" "grubaa64.efi"
    else if archStr = "x86legacy" then goReplaceAll p1 "{efi}" "grub.0"
    else goReplaceAll p1 "{efi}" "unknown.efi"
  { u with path := p2 }

/-- The option-generation step of the closure: branch on the working
URL's scheme and produce the candidate values `(tftpOpt, bootOpt)` for
option 66 (TFTP server name) and option 67 (bootfile name). -/
def resolve4 (u : URL) (archs : List Nat) : Option String × Option String :=
  let m := resolveURL4 u archs
  if m.scheme = "http" ∨ m.scheme = "https" ∨ m.scheme = "ftp" then
    (none, some (uString m))
  else
    (some m.host, some m.path)

/-- DHCPv4 option code `dhcpv4.OptionTFTPServerName`. -/
def OptionTFTPServerName : Nat := 66

/-- DHCPv4 option code `dhcpv4.OptionBootfileName`. -/
def OptionBootfileName : Nat := 67

/-- Model of `dhcpv4.Options.Update`: set the value of an option code,
replacing any previous value for that code. -/
def optUpdate : List (Nat × String) → Nat → String → List (Nat × String)
  | [], code, v => [(code, v)]
  | (k, w) :: r, code, v =>
    if k = code then (code, v) :: r else (k, w) :: optUpdate r code v

/-- Lookup of an option code's value in a reply's options. -/
def optLookup (code : Nat) : List (Nat × String) → Option String
  | [] => none
  | (c, v) :: r => if c = code then some v else optLookup code r

/-- The DHCPv4 handler closure returned by `nbp.setup4`.  `u` is the
captured template (the Go closure holds a pointer to it and only ever
copies it, never writes through it; the first component of the result
is the captured template as left behind by the call).  `requestedOpts`
models `req.IsOptionRequested`; `resp` the reply's options. -/
def nbpHandler4 (u : URL) (archs requestedOpts : List Nat)
    (resp : List (Nat × String)) : URL × List (Nat × String) × Bool :=
  let r := resolve4 u archs
  let tftpOpt := r.1
  let bootOpt := r.2
  let resp1 :=
    match tftpOpt with
    | some v =>
      if requestedOpts.contains OptionTFTPServerName then
        optUpdate resp OptionTFTPServerName v
      else resp
    | none => resp
  let resp2 :=
    match bootOpt with
    | some v =>
      if requestedOpts.contains OptionBootfileName then
        optUpdate resp1 OptionBootfileName v
      else resp1
    | none => resp1
  (u, resp2, true)

/-- DHCPv6 option code `dhcpv6.OptionBootfileURL`. -/
def OptionBootfileURL : Nat := 59

/-- DHCPv6 option code `dhcpv6.OptionBootfileParam`. -/
def OptionBootfileParam : Nat := 60

/-- The `for _, code := range RequestedOptions()` loop of
`nbp.nbpHandler6`: walk the requested codes, appending option 59 (with
the configured boot-file URL `v59`) at each request for it, and option
60 (when a params value `opt60` was configured) at each request for
that.  `dhcpv6.AddOption` appends to the reply's option list. -/
def nbpAddOpts (v59 : String) (opt60 : Option String) :
    List Nat → List (Nat × String) → List (Nat × String)
  | [], r => r
  | code :: rest, r =>
    if code = OptionBootfileURL then
      nbpAddOpts v59 opt60 rest (r ++ [(OptionBootfileURL, v59)])
    else if code = OptionBootfileParam then
      match opt60 with
      | some v60 => nbpAddOpts v59 opt60 rest (r ++ [(OptionBootfileParam, v60)])
      | none => nbpAddOpts v59 opt60 rest r
    else nbpAddOpts v59 opt60 rest r

/-- Embedding of nbp.nbpHandler6.  `opt59`/`opt60` are the package-level options
prepared by `setup6` (`none` = Go `nil`); `decap` is the result of
`req.GetInnerMessage()` reduced to its requested option codes (`none`
on decapsulation error); `resp` the reply's options. -/
def nbpHandler6 (opt59 opt60 : Option String) (decap : Option (List Nat))
    (resp : List (Nat × String)) : Option (List (Nat × String)) × Bool :=
  match opt59 with
  | none => (some resp, true)
  | some v59 =>
    match decap with
    | none => (none, true)
    | some codes => (some (nbpAddOpts v59 opt60 codes resp), true)

/-- The fixed bootloader-filename table of the specification, keyed on
the short architecture form; compared against the `switch archStr`
statement of the source in the placeholder-substitution theorem. -/
def efiFileForArch (archStr : String) : String :=
  if archStr = "x86" then "grubx64.efi"
  else if archStr = "arm64" then "grubaa64.efi"
  else if archStr = "x86legacy" then "grub.0"
  else "unknown.efi"

/-! ## Helper lemmas -/

theorem mem_setupWhitelist (args : List String) (x : String) :
    x ∈ setupWhitelist args ↔ x ≠ "" ∧ ∃ a ∈ args, asciiToLower (trimSpace a) = x := by
  induction args with
  | nil => simp [setupWhitelist]
  | cons a rest ih =>
    by_cases h : (asciiToLower (trimSpace a)).length > 0
    · have hne : asciiToLower (trimSpace a) ≠ "" := by
        intro e
        rw [e] at h
        simp [String.length] at h
      simp only [setupWhitelist, if_pos h, List.mem_cons, ih]
      constructor
      · rintro (rfl | ⟨hx, a2, ha2, he⟩)
        · exact ⟨hne, a, Or.inl rfl, rfl⟩
        · exact ⟨hx, a2, Or.inr ha2, he⟩
      · rintro ⟨hx, a2, rfl | ha2r, he⟩
        · exact Or.inl he.symm
        · exact Or.inr ⟨hx, a2, ha2r, he⟩
    · have hemp : asciiToLower (trimSpace a) = "" := by
        rcases hm : asciiToLower (trimSpace a) with ⟨d⟩
        cases d with
        | nil => rfl
        | cons c cs => rw [hm] at h; simp [String.length] at h
      simp only [setupWhitelist, if_neg h, ih]
      constructor
      · rintro ⟨hx, a2, ha2, he⟩
        exact ⟨hx, a2, List.mem_cons_of_mem a ha2, he⟩
      · rintro ⟨hx, a2, ha2, he⟩
        rcases List.mem_cons.mp ha2 with rfl | ha2r
        · exact absurd (hemp ▸ he.symm) hx
        · exact ⟨hx, a2, ha2r, he⟩

theorem optLookup_update_self (r : List (Nat × String)) (c : Nat) (v : String) :
    optLookup c (optUpdate r c v) = some v := by
  induction r with
  | nil => simp [optUpdate, optLookup]
  | cons p rest ih =>
    obtain ⟨k, w⟩ := p
    by_cases hk : k = c <;> simp [optUpdate, optLookup, hk, ih]

theorem optLookup_update_ne (r : List (Nat × String)) (c c2 : Nat) (v : String)
    (h : c ≠ c2) : optLookup c (optUpdate r c2 v) = optLookup c r := by
  induction r with
  | nil => simp [optUpdate, optLookup, Ne.symm h]
  | cons p rest ih =>
    obtain ⟨k, w⟩ := p
    by_cases hk : k = c2
    · subst hk
      simp [optUpdate, optLookup, Ne.symm h]
    · simp [optUpdate, optLookup, hk, ih]

theorem mem_nbpAddOpts (v59 : String) (o60 : Option String) (codes : List Nat)
    (r : List (Nat × String)) (x : Nat × String) :
    x ∈ nbpAddOpts v59 o60 codes r ↔
      x ∈ r ∨ (OptionBootfileURL ∈ codes ∧ x = (OptionBootfileURL, v59))
        ∨ (∃ v, o60 = some v ∧ OptionBootfileParam ∈ codes
             ∧ x = (OptionBootfileParam, v)) := by
  induction codes generalizing r with
  | nil => simp [nbpAddOpts]
  | cons c cs ih =>
    by_cases h59 : c = OptionBootfileURL
    · subst h59
      have hstep : nbpAddOpts v59 o60 (OptionBootfileURL :: cs) r
          = nbpAddOpts v59 o60 cs (r ++ [(OptionBootfileURL, v59)]) := by
        simp [nbpAddOpts]
      rw [hstep, ih]
      constructor
      · rintro (hr | ⟨hc, hx⟩ | ⟨v, hv, hc, hx⟩)
        · rcases List.mem_append.mp hr with hr1 | hr2
          · exact Or.inl hr1
          · exact Or.inr (Or.inl ⟨List.mem_cons_self _ _, List.mem_singleton.mp hr2⟩)
        · exact Or.inr (Or.inl ⟨List.mem_cons_of_mem _ hc, hx⟩)
        · exact Or.inr (Or.inr ⟨v, hv, List.mem_cons_of_mem _ hc, hx⟩)
      · rintro (hr | ⟨hc, hx⟩ | ⟨v, hv, hc, hx⟩)
        · exact Or.inl (List.mem_append.mpr (Or.inl hr))
        · rcases List.mem_cons.mp hc with _ | hcs
          · exact Or.inl (List.mem_append.mpr (Or.inr (List.mem_singleton.mpr hx)))
          · exact Or.inr (Or.inl ⟨hcs, hx⟩)
        · rcases List.mem_cons.mp hc with he | hcs
          · exact absurd he (by decide)
          · exact Or.inr (Or.inr ⟨v, hv, hcs, hx⟩)
    · by_cases h60 : c = OptionBootfileParam
      · subst h60
        cases o60 with
        | none =>
          have hstep : nbpAddOpts v59 none (OptionBootfileParam :: cs) r
              = nbpAddOpts v59 none cs r := rfl
          rw [hstep, ih]
          constructor
          · rintro (hr | ⟨hc, hx⟩ | ⟨v, hv, _⟩)
            · exact Or.inl hr
            · exact Or.inr (Or.inl ⟨List.mem_cons_of_mem _ hc, hx⟩)
            · cases hv
          · rintro (hr | ⟨hc, hx⟩ | ⟨v, hv, _⟩)
            · exact Or.inl hr
            · rcases List.mem_cons.mp hc with he | hcs
              · exact absurd he (by decide)
              · exact Or.inr (Or.inl ⟨hcs, hx⟩)
            · cases hv
        | some v60 =>
          have hstep : nbpAddOpts v59 (some v60) (OptionBootfileParam :: cs) r
              = nbpAddOpts v59 (some v60) cs (r ++ [(OptionBootfileParam, v60)]) := rfl
          rw [hstep, ih]
          constructor
          · rintro (hr | ⟨hc, hx⟩ | ⟨v, hv, hc, hx⟩)
            · rcases List.mem_append.mp hr with hr1 | hr2
              · exact Or.inl hr1
              · exact Or.inr (Or.inr ⟨v60, rfl, List.mem_cons_self _ _,
                  List.mem_singleton.mp hr2⟩)
            · exact Or.inr (Or.inl ⟨List.mem_cons_of_mem _ hc, hx⟩)
            · exact Or.inr (Or.inr ⟨v, hv, List.mem_cons_of_mem _ hc, hx⟩)
          · rintro (hr | ⟨hc, hx⟩ | ⟨v, hv, hc, hx⟩)
            · exact Or.inl (List.mem_append.mpr (Or.inl hr))
            · rcases List.mem_cons.mp hc with he | hcs
              · exact absurd he (by decide)
              · exact Or.inr (Or.inl ⟨hcs, hx⟩)
            · rcases List.mem_cons.mp hc with _ | hcs
              · obtain ⟨rfl⟩ := hv
                exact Or.inl (List.mem_append.mpr (Or.inr (List.mem_singleton.mpr hx)))
              · exact Or.inr (Or.inr ⟨v, hv, hcs, hx⟩)
      · have hstep : nbpAddOpts v59 o60 (c :: cs) r = nbpAddOpts v59 o60 cs r := by
          simp [nbpAddOpts, h59, h60]
        rw [hstep, ih]
        constructor
        · rintro (hr | ⟨hc, hx⟩ | ⟨v, hv, hc, hx⟩)
          · exact Or.inl hr
          · exact Or.inr (Or.inl ⟨List.mem_cons_of_mem _ hc, hx⟩)
          · exact Or.inr (Or.inr ⟨v, hv, List.mem_cons_of_mem _ hc, hx⟩)
        · rintro (hr | ⟨hc, hx⟩ | ⟨v, hv, hc, hx⟩)
          · exact Or.inl hr
          · rcases List.mem_cons.mp hc with he | hcs
            · exact absurd he.symm h59
            · exact Or.inr (Or.inl ⟨hcs, hx⟩)
          · rcases List.mem_cons.mp hc with he | hcs
            · exact absurd he.symm h60
            · exact Or.inr (Or.inr ⟨v, hv, hcs, hx⟩)


/-! ## Theorems -/

/-- C2: if the allow-set was never configured (`nil`) or is empty, both
admission handlers return the reply unchanged with stop = false, for
every hardware address and every extraction result (fail-open). -/
theorem whitelist_fail_open {α : Type} (s : String) (e : Option String) (resp : α) :
    Handler4 none s resp = (some resp, false)
  ∧ Handler4 (some []) s resp = (some resp, false)
  ∧ Handler6 none e resp = (some resp, false)
  ∧ Handler6 (some []) e resp = (some resp, false) :=
  ⟨rfl, rfl, rfl, rfl⟩

/-- C4: with a non-empty allow-set, a DHCPv6 request whose hardware
address cannot be extracted is rejected with `(nil, stop = true)`. -/
theorem whitelist6_extraction_failure_rejects {α : Type} (l : List String) (resp : α)
    (h : l ≠ []) : Handler6 (some l) none resp = (none, true) := by
  have hE : l.isEmpty = false := by simp [List.isEmpty_iff, h]
  simp [Handler6, hE]

/-- Witness for C4 at the allow-set `["00:11:22:33:44:55"]`. -/
theorem whitelist6_extraction_failure_rejects_witness :
    (["00:11:22:33:44:55"] : List String) ≠ []
  ∧ Handler6 (some ["00:11:22:33:44:55"]) none (0 : Nat) = (none, true) :=
  ⟨by decide, whitelist6_extraction_failure_rejects ["00:11:22:33:44:55"] 0 (by decide)⟩

/-- C8: the architecture classifier is total: the empty list yields
`default`; otherwise only the first code is inspected — the EFI x86-64
code yields the `x86` short form, the EFI ARM64 code `arm64`, the
legacy Intel x86 PC code `x86legacy`, and any other code `unknown`. -/
theorem arch_classifier_total :
    getArchString [] = "default"
  ∧ (∀ (a : Nat) (rest : List Nat), getArchString (a :: rest) =
      if a = EFI_X86_64 then "x86"
      else if a = EFI_ARM64 then "arm64"
      else if a = INTEL_X86PC then "x86legacy"
      else "unknown")
  ∧ (∀ (a : Nat) (r1 r2 : List Nat), getArchString (a :: r1) = getArchString (a :: r2)) :=
  ⟨rfl, fun _ _ => rfl, fun _ _ _ => rfl⟩

/-- C3 counterexample: with no boot-file URL option configured
(`opt59 = nil`), `nbpHandler6` does not return the continue signal
(stop = false); at the concrete input below its stop flag is true. -/
theorem nbp6_no_template_claim_counterexample :
    ¬ ((nbpHandler6 none none (some [59]) ([] : List (Nat × String))).2 = false) := by
  decide

/-- C3 amended: with no boot-file URL option configured, `nbpHandler6`
performs no mutation and returns the reply as-is, but with the stop
signal (stop = true), terminating the chain; it signals no error and
does not drop the reply. -/
theorem nbp6_no_template_returns_unchanged (opt60 : Option String)
    (decap : Option (List Nat)) (resp : List (Nat × String)) :
    nbpHandler6 none opt60 decap resp = (some resp, true) := rfl

/-- C9: the DHCPv4 boot handler never mutates the captured template:
after a call the template is unchanged, resolving against the
left-behind template gives the same result as against the original,
and a repeated call yields an identical result. -/
theorem nbp4_template_immutable (u : URL) (archs req : List Nat)
    (resp : List (Nat × String)) :
    (nbpHandler4 u archs req resp).1 = u
  ∧ resolve4 (nbpHandler4 u archs req resp).1 archs = resolve4 u archs
  ∧ nbpHandler4 (nbpHandler4 u archs req resp).1 archs req resp
      = nbpHandler4 u archs req resp :=
  ⟨rfl, rfl, rfl⟩

/-- C10: the handler returned by `nbp.setup4` stops the chain on every
invocation (stop = true), and when neither option 66 nor option 67 was
requested the reply's options are returned unmodified. -/
theorem nbp4_always_stops (u : URL) (archs req : List Nat)
    (resp : List (Nat × String)) :
    (nbpHandler4 u archs req resp).2.2 = true
  ∧ (OptionTFTPServerName ∉ req → OptionBootfileName ∉ req →
      (nbpHandler4 u archs req resp).2.1 = resp) := by
  refine ⟨rfl, fun h66 h67 => ?_⟩
  rcases h1 : (resolve4 u archs).1 with _ | v <;>
    rcases h2 : (resolve4 u archs).2 with _ | w <;>
    simp [nbpHandler4, h1, h2, h66, h67]

/-- Witness for C10 at a concrete template and request. -/
theorem nbp4_always_stops_witness :
    (nbpHandler4 ⟨"tftp", "10.0.0.1", "/pxe/{arch}", ""⟩ [0] [1, 3] []).2.2 = true
  ∧ (nbpHandler4 ⟨"tftp", "10.0.0.1", "/pxe/{arch}", ""⟩ [0] [1, 3] []).2.1 = [] := by
  have H := nbp4_always_stops ⟨"tftp", "10.0.0.1", "/pxe/{arch}", ""⟩ [0] [1, 3] []
  exact ⟨H.1, H.2 (by decide) (by decide)⟩

/-- C5: after substitution the DHCPv4 resolver branches on the working
URL's scheme — `http`/`https`/`ftp` yield the whole resolved URL as the
single boot-file value and no transfer-server value; any other scheme
yields the host as the transfer-server value and the path as the
boot-file value.  The two concrete spec scenarios are included. -/
theorem nbp4_scheme_branching :
    (∀ (u : URL) (archs : List Nat),
      resolve4 u archs =
        if u.scheme = "http" ∨ u.scheme = "https" ∨ u.scheme = "ftp" then
          (none, some (uString (resolveURL4 u archs)))
        else (some u.host, some (resolveURL4 u archs).path))
  ∧ resolve4 ⟨"tftp", "10.0.0.1", "/pxe/{arch}", ""⟩ [INTEL_X86PC]
      = (some "10.0.0.1", some "/pxe/x86legacy")
  ∧ resolve4 ⟨"http", "boot.example", "/{arch}.ipxe", ""⟩ [EFI_ARM64]
      = (none, some "http://boot.example/arm64.ipxe") := by
  refine ⟨fun u archs => ?_, by decide, by decide⟩
  have hs : (resolveURL4 u archs).scheme = u.scheme := rfl
  have hh : (resolveURL4 u archs).host = u.host := rfl
  simp only [resolve4, hs, hh]

/-- C7: placeholder substitution replaces every occurrence of the arch
placeholder in the path with the classified short form, then every
occurrence of the efi placeholder with the filename from the fixed
table keyed on that short form, leaving scheme, host and query alone;
`"/boot/{arch}/{efi}"` with the EFI x86-64 code resolves to
`"/boot/x86/grubx64.efi"`. -/
theorem nbp4_placeholder_substitution :
    (∀ (u : URL) (archs : List Nat),
      (resolveURL4 u archs).path =
        goReplaceAll (goReplaceAll u.path "{arch}" (getArchString archs))
          "{efi}" (efiFileForArch (getArchString archs))
      ∧ (resolveURL4 u archs).scheme = u.scheme
      ∧ (resolveURL4 u archs).host = u.host
      ∧ (resolveURL4 u archs).query = u.query)
  ∧ (resolveURL4 ⟨"tftp", "10.0.0.1", "/boot/{arch}/{efi}", ""⟩ [EFI_X86_64]).path
      = "/boot/x86/grubx64.efi" := by
  refine ⟨fun u archs => ⟨?_, rfl, rfl, rfl⟩, by decide⟩
  simp only [resolveURL4, efiFileForArch]
  split_ifs <;> rfl

/-- C1: with a non-empty configured allow-set built by setup from the
argument list, both handlers allow (reply, stop = false) exactly when
the lower-cased hardware-address text is in the set, and reject
(nil, stop = true) exactly otherwise; the set's members are the
non-empty trimmed-and-lower-cased arguments; and any two case
permutations of the same address get identical decisions. -/
theorem whitelist_admission_decision {α : Type} (args : List String) (s : String)
    (resp : α) (h : setupWhitelist args ≠ []) :
    (Handler4 (some (setupWhitelist args)) s resp = (some resp, false)
        ↔ asciiToLower s ∈ setupWhitelist args)
  ∧ (Handler4 (some (setupWhitelist args)) s resp = (none, true)
        ↔ asciiToLower s ∉ setupWhitelist args)
  ∧ (Handler6 (some (setupWhitelist args)) (some s) resp = (some resp, false)
        ↔ asciiToLower s ∈ setupWhitelist args)
  ∧ (Handler6 (some (setupWhitelist args)) (some s) resp = (none, true)
        ↔ asciiToLower s ∉ setupWhitelist args)
  ∧ (∀ x, x ∈ setupWhitelist args ↔ x ≠ "" ∧ ∃ a ∈ args, asciiToLower (trimSpace a) = x)
  ∧ (∀ t, asciiToLower t = asciiToLower s →
      Handler4 (some (setupWhitelist args)) t resp
        = Handler4 (some (setupWhitelist args)) s resp
      ∧ Handler6 (some (setupWhitelist args)) (some t) resp
        = Handler6 (some (setupWhitelist args)) (some s) resp) := by
  have hE : (setupWhitelist args).isEmpty = false := by
    simp [List.isEmpty_iff, h]
  have h4 : ∀ t : String, Handler4 (some (setupWhitelist args)) t resp =
      if asciiToLower t ∈ setupWhitelist args then (some resp, false) else (none, true) := by
    intro t
    by_cases hc : asciiToLower t ∈ setupWhitelist args <;> simp [Handler4, hE, hc]
  have h6 : ∀ t : String, Handler6 (some (setupWhitelist args)) (some t) resp =
      if asciiToLower t ∈ setupWhitelist args then (some resp, false) else (none, true) := by
    intro t
    by_cases hc : asciiToLower t ∈ setupWhitelist args <;> simp [Handler6, hE, hc]
  refine ⟨?_, ?_, ?_, ?_, mem_setupWhitelist args, ?_⟩
  · rw [h4]
    by_cases hc : asciiToLower s ∈ setupWhitelist args <;> simp [hc]
  · rw [h4]
    by_cases hc : asciiToLower s ∈ setupWhitelist args <;> simp [hc]
  · rw [h6]
    by_cases hc : asciiToLower s ∈ setupWhitelist args <;> simp [hc]
  · rw [h6]
    by_cases hc : asciiToLower s ∈ setupWhitelist args <;> simp [hc]
  · intro t ht
    rw [h4 t, h4 s, h6 t, h6 s, ht]
    exact ⟨rfl, rfl⟩

/-- Witness for C1: the spec's end-to-end admission scenario with
allow-list `["00:11:22:33:44:55"]`. -/
theorem whitelist_admission_decision_witness :
    setupWhitelist ["00:11:22:33:44:55"] ≠ []
  ∧ Handler4 (some (setupWhitelist ["00:11:22:33:44:55"])) "00:11:22:33:44:55" (0 : Nat)
      = (some 0, false)
  ∧ Handler6 (some (setupWhitelist ["00:11:22:33:44:55"]))
      (some "00:00:00:00:00:00") (0 : Nat) = (none, true) := by
  have h : setupWhitelist ["00:11:22:33:44:55"] ≠ [] := by decide
  refine ⟨h, ?_, ?_⟩
  · exact (whitelist_admission_decision ["00:11:22:33:44:55"] "00:11:22:33:44:55"
      (0 : Nat) h).1.mpr (by decide)
  · exact (whitelist_admission_decision ["00:11:22:33:44:55"] "00:00:00:00:00:00"
      (0 : Nat) h).2.2.2.1.mpr (by decide)

/-- C6: option emission gating.  DHCPv4: the reply's option 66 value
is the computed transfer-server value exactly when one was computed and
66 was requested, else unchanged; likewise and independently for the
boot-file option 67.  DHCPv6: the handler appends exactly the option-59
entry when code 59 is requested, and the option-60 entry when code 60
is requested and a params value was configured. -/
theorem nbp_option_emission_gating :
    (∀ (u : URL) (archs req : List Nat) (resp : List (Nat × String)),
      optLookup OptionTFTPServerName (nbpHandler4 u archs req resp).2.1 =
        (if OptionTFTPServerName ∈ req ∧ (resolve4 u archs).1 ≠ none
         then (resolve4 u archs).1 else optLookup OptionTFTPServerName resp)
      ∧ optLookup OptionBootfileName (nbpHandler4 u archs req resp).2.1 =
        (if OptionBootfileName ∈ req ∧ (resolve4 u archs).2 ≠ none
         then (resolve4 u archs).2 else optLookup OptionBootfileName resp))
  ∧ (∀ (v59 : String) (opt60 : Option String) (codes : List Nat)
        (resp : List (Nat × String)),
      nbpHandler6 (some v59) opt60 (some codes) resp
          = (some (nbpAddOpts v59 opt60 codes resp), true)
      ∧ ∀ x, x ∈ nbpAddOpts v59 opt60 codes resp ↔
          x ∈ resp ∨ (OptionBootfileURL ∈ codes ∧ x = (OptionBootfileURL, v59))
            ∨ (∃ v, opt60 = some v ∧ OptionBootfileParam ∈ codes
                 ∧ x = (OptionBootfileParam, v))) := by
  constructor
  · intro u archs req resp
    have hne : OptionTFTPServerName ≠ OptionBootfileName := by decide
    have hne2 : OptionBootfileName ≠ OptionTFTPServerName := by decide
    rcases h1 : (resolve4 u archs).1 with _ | v <;>
      rcases h2 : (resolve4 u archs).2 with _ | w <;>
      by_cases m66 : OptionTFTPServerName ∈ req <;>
      by_cases m67 : OptionBootfileName ∈ req <;>
      simp [nbpHandler4, h1, h2, m66, m67, optLookup_update_self,
        optLookup_update_ne _ _ _ _ hne, optLookup_update_ne _ _ _ _ hne2]
  · intro v59 opt60 codes resp
    exact ⟨rfl, fun x => mem_nbpAddOpts v59 opt60 codes resp x⟩

/-- Witness for C6 at the tftp template of the spec scenario: option 67
requested but option 66 not — only the boot-file value is attached. -/
theorem nbp_option_emission_gating_witness :
    optLookup OptionBootfileName
      (nbpHandler4 ⟨"tftp", "10.0.0.1", "/pxe/{arch}", ""⟩ [0] [67] []).2.1
      = some "/pxe/x86legacy"
  ∧ optLookup OptionTFTPServerName
      (nbpHandler4 ⟨"tftp", "10.0.0.1", "/pxe/{arch}", ""⟩ [0] [67] []).2.1
      = none := by
  have H := nbp_option_emission_gating.1 ⟨"tftp", "10.0.0.1", "/pxe/{arch}", ""⟩
    [0] [67] ([] : List (Nat × String))
  exact ⟨H.2.trans (by decide), H.1.trans (by decide)⟩

end CoreDHCP
